import Mathlib

/-!
# Verification of the walship shipping agent

A shallow embedding, in Lean 4, of the core components of the walship
WAL-shipping agent (Go), together with theorems settling the claims of its
natural-language specification.  The embedded components:

* the lifecycle state machine (`internal/app/lifecycle.go`,
  `pkg/lifecycle/manager.go`);
* the frame batcher (`internal/app/batcher.go`, `internal/domain/batch.go`);
* the multipart frame sender (`internal/adapters/http/sender.go`);
* the persisted-state store (`internal/adapters/fs/state_file.go`,
  `pkg/state/state.go`);
* the resumable index reader (`pkg/wal`, file `IndexReader` with `Next`,
  `nextIndexAfter`, `oldestIndex`);
* the disk-bounded cleanup pass (`internal/agent/cleanup.go`);
* the agent loop (`internal/app/agent.go`, `Agent.Run` / `Agent.trySend`).

File systems are modelled as finite association lists from paths to contents;
paths are lists of components, so that `filepath.Dir` is `List.dropLast` and
`filepath.Base` is the last component (all paths the program builds are clean
component-wise joins).  Bytes are modelled as `List Nat`; reading a byte range
of a blob only ever depends on the blob size, so blob files are modelled by
their size and the compressed payload of a frame by an opaque description of
the range read.
-/

namespace Walship

/-! ## Paths and directory listings -/

/-- A file-system path, as the list of its components.  `filepath.Join`
appends a component, `filepath.Dir` drops the last component, and
`filepath.Base` is the last component. -/
abbrev Path := List String

/-- `filepath.Dir` on a clean component-wise path. -/
def dirOf (p : Path) : Path := p.dropLast

/-- `filepath.Base` on a clean component-wise path. -/
def baseOf (p : Path) : String := (p.getLast?).getD ""

/-- One entry of a directory listing, as returned by `os.ReadDir`:
a name and whether the entry is a directory. -/
structure DirEnt where
  name : String
  isDir : Bool
  deriving Repr, DecidableEq

/-! ## Segment and day-directory naming

`isDayDirName` embeds the day-directory check used throughout the repo
(`len(name) == len("2006-01-02") && strings.Count(name, "-") == 2`).
`pad6` embeds `fmt.Sprintf("%06d", n)` and `parseSegIdxName` embeds
`fmt.Sscanf(base, "seg-%06d.wal.idx", &cur)`: scan the literal `seg-`,
then at most six decimal digits (at least one), then the literal
`.wal.idx`. -/

/-- Day-directory name check: length of `2006-01-02` and exactly two dashes. -/
def isDayDirName (s : String) : Bool :=
  s.length = 10 && (s.toList.count '-') = 2

/-- Decimal digits of `n` (most significant first), `['0']` for `0`. -/
def natDigits (n : Nat) : List Char :=
  (Nat.toDigits 10 n)

/-- `fmt.Sprintf("%06d", n)`: decimal, left-padded with zeros to width 6. -/
def pad6 (n : Nat) : String :=
  let ds := natDigits n
  String.mk (List.replicate (6 - ds.length) '0' ++ ds)

/-- The index-file name of segment `n`: `seg-<%06d>.wal.idx`. -/
def segIdxName (n : Nat) : String := "seg-" ++ pad6 n ++ ".wal.idx"

/-- Value of a list of decimal digit characters. -/
def digitsVal (ds : List Char) : Nat :=
  ds.foldl (fun acc c => 10 * acc + (c.toNat - '0'.toNat)) 0

/-- `fmt.Sscanf(base, "seg-%06d.wal.idx", &cur)`: succeeds iff `base` is
`seg-` followed by one to six decimal digits followed by `.wal.idx`
(the `%06d` verb reads at most six digits; a seventh digit makes the
literal suffix fail to match). -/
def parseSegIdxName (base : String) : Option Nat :=
  let cs := base.toList
  if cs.take 4 = "seg-".toList then
    let rest := cs.drop 4
    let digits := (rest.takeWhile (·.isDigit)).take 6
    if digits.length = 0 then none
    else if rest.drop digits.length = ".wal.idx".toList then
      some (digitsVal digits)
    else none
  else none

/-! ## Lifecycle state machine

Embeds `State` and `Lifecycle.TransitionTo` from `internal/app/lifecycle.go`;
`DefaultManager.TransitionTo` in `pkg/lifecycle/manager.go` is textually the
same validation switch, so a single embedding covers both. -/

/-- Lifecycle states, from `internal/app/lifecycle.go`. -/
inductive LState where
  | stopped
  | starting
  | running
  | stopping
  | crashed
  deriving Repr, DecidableEq, Fintype

/-- The two error values a failed transition can return. -/
inductive LErr where
  | notRunning      -- domain.ErrNotRunning
  | alreadyRunning  -- domain.ErrAlreadyRunning
  deriving Repr, DecidableEq

open LState in
/-- The validation switch of `Lifecycle.TransitionTo` (and, identically,
`DefaultManager.TransitionTo`): on success the state becomes `newState`,
on failure the state is unchanged and the listed error is returned. -/
def transitionTo (oldState newState : LState) : Except LErr LState :=
  match oldState with
  | stopped =>
      if newState ≠ starting then .error .notRunning else .ok newState
  | starting =>
      if newState ≠ running ∧ newState ≠ crashed then .error .alreadyRunning
      else .ok newState
  | running =>
      if newState ≠ stopping ∧ newState ≠ crashed then .error .alreadyRunning
      else .ok newState
  | stopping =>
      if newState ≠ stopped ∧ newState ≠ crashed then .error .alreadyRunning
      else .ok newState
  | crashed =>
      if newState ≠ starting then .error .notRunning else .ok newState

open LState in
/-- The spec's transition table (§4.9): the nine pairs listed as valid. -/
def specTableAllows (oldState newState : LState) : Bool :=
  decide ((oldState, newState) ∈ [
    (stopped, starting),
    (starting, running),
    (starting, stopping),
    (starting, crashed),
    (running, stopping),
    (running, crashed),
    (stopping, stopped),
    (stopping, crashed),
    (crashed, starting)])

/-! ## Batcher

Embeds `domain.Batch` (`internal/domain/batch.go`) and `Batcher.Add`
(`internal/app/batcher.go`).  Compressed bytes are `List Nat`; only their
length ever matters to the batcher. -/

/-- Frame descriptor, one per index line; field names follow
`domain.FrameMeta` (`internal/domain/frame.go`) and its JSON tags. -/
structure FrameMeta where
  file : String
  frame : Nat
  off : Nat
  len : Nat
  recs : Nat
  firstTs : Int
  lastTs : Int
  crc32 : Nat
  deriving Repr, DecidableEq

/-- `domain.Batch`: three parallel sequences plus the running byte total. -/
structure Batch where
  frames : List FrameMeta
  compressedData : List (List Nat)
  idxLineLengths : List Nat
  totalBytes : Nat
  deriving Repr, DecidableEq

/-- `domain.NewBatch`. -/
def Batch.new : Batch := ⟨[], [], [], 0⟩

/-- `Batch.Add`: append to all three sequences and bump the byte total. -/
def Batch.add (b : Batch) (f : FrameMeta) (compressed : List Nat)
    (idxLineLen : Nat) : Batch :=
  { frames := b.frames ++ [f]
    compressedData := b.compressedData ++ [compressed]
    idxLineLengths := b.idxLineLengths ++ [idxLineLen]
    totalBytes := b.totalBytes + compressed.length }

/-- `Batch.Empty`. -/
def Batch.isEmpty (b : Batch) : Bool := b.frames.isEmpty

/-- `Batch.TotalIdxAdvance`: the sum of the stored index-line lengths. -/
def Batch.totalIdxAdvance (b : Batch) : Nat :=
  b.idxLineLengths.foldl (· + ·) 0

/-- The `Batcher` of `internal/app/batcher.go`, without the two wall-clock
fields (`lastSend` is modelled where the agent loop needs it).
`maxBatchBytes` is an `Int` because the Go field is a signed `int` and the
`maxBatchBytes > 0` guards are taken on the signed value. -/
structure Batcher where
  batch : Batch
  maxBatchBytes : Int
  deriving Repr, DecidableEq

/-- `Batcher.Add` (`internal/app/batcher.go` lines 31–48).  Returns the
updated batcher and the size-trigger boolean. -/
def Batcher.add (b : Batcher) (f : FrameMeta) (compressed : List Nat)
    (idxLineLen : Nat) : Batcher × Bool :=
  -- Check if this single frame exceeds max batch size
  if 0 < b.maxBatchBytes ∧ b.maxBatchBytes < (compressed.length : Int) then
    ({ b with batch := b.batch.add f compressed idxLineLen }, true)
  -- Check if adding this frame would exceed max batch size
  else if 0 < b.maxBatchBytes ∧
      b.maxBatchBytes < (b.batch.totalBytes : Int) + (compressed.length : Int) then
    (b, true)
  else
    ({ b with batch := b.batch.add f compressed idxLineLen }, false)

/-! ## JSON values

A small JSON model: objects are association lists in writing order.  The Go
code serializes with `encoding/json`, whose output for the structs at hand is
exactly an object with the tag names in struct-field order; we work at the
level of this JSON tree (the byte rendering parses back to the same tree). -/

/-- JSON values.  Numbers are integers: every numeric field of the embedded
structs is an integer type in Go, marshalled without a fractional part. -/
inductive JVal where
  | null
  | str (s : String)
  | num (n : Int)
  | arr (xs : List JVal)
  | obj (fields : List (String × JVal))
  deriving Repr

/-! ## Frame sender

Embeds `FrameSender.Send` from `internal/adapters/http/sender.go`: the
manifest built by the indexed loop over `frames`, its JSON rendering, and the
`frames` part body written by the write loop.  HTTP transport and headers are
not modelled; the claims concern the request body. -/

/-- `sender.FrameData`: one frame descriptor plus its compressed bytes. -/
structure FrameData where
  frame : FrameMeta
  compressedData : List Nat
  deriving Repr, DecidableEq

/-- The JSON fields of one `domain.FrameMeta`, in struct order with the
canonical tag names (`internal/domain/frame.go`). -/
def frameMetaFields (m : FrameMeta) : List (String × JVal) :=
  [("file", .str m.file),
   ("frame", .num ((m.frame : Int))),
   ("off", .num ((m.off : Int))),
   ("len", .num ((m.len : Int))),
   ("recs", .num ((m.recs : Int))),
   ("first_ts", .num m.firstTs),
   ("last_ts", .num m.lastTs),
   ("crc32", .num ((m.crc32 : Int)))]

/-- The manifest loop of `FrameSender.Send`: `manifest[i]` is a
`domain.FrameMeta` rebuilt field by field from `frames[i].Frame`. -/
def buildManifest (frames : List FrameData) : List FrameMeta :=
  frames.map fun fd =>
    { file := fd.frame.file
      frame := fd.frame.frame
      off := fd.frame.off
      len := fd.frame.len
      recs := fd.frame.recs
      firstTs := fd.frame.firstTs
      lastTs := fd.frame.lastTs
      crc32 := fd.frame.crc32 }

/-- The two body parts of the multipart request built by `Send`:
the `manifest` form field (JSON) and the `frames` file part (filename hint
plus concatenated bytes). -/
structure SendRequest where
  manifestPart : JVal
  framesFilename : String
  framesPart : List Nat
  deriving Repr

/-- `FrameSender.Send` body construction: marshal the manifest array, pick
the filename hint (`frames.bin`, overridden by the first frame's segment
file name), and write every frame's compressed bytes in order. -/
def buildSendRequest (frames : List FrameData) : SendRequest :=
  { manifestPart := .arr ((buildManifest frames).map fun m => .obj (frameMetaFields m))
    framesFilename :=
      match frames with
      | [] => "frames.bin"
      | fd :: _ => fd.frame.file
    framesPart := frames.foldl (fun acc fd => acc ++ fd.compressedData) [] }

/-! ## Persisted-state store

Embeds the `State` struct of `pkg/state/state.go` (the same struct, with the
same JSON tags, backs `internal/adapters/fs/state_file.go`), its JSON
marshalling, and the `Save`/`Load` pair over a model of the state directory
holding `status.json` and `status.json.tmp`.  `time.Time` instants are
modelled as integers (the code only copies and serializes them). -/

/-- The persisted state (`pkg/state/state.go`). -/
structure PState where
  idxPath : String
  idxOffset : Int
  curGz : String
  lastFile : String
  lastFrame : Nat
  lastCommitAt : Int
  lastSendAt : Int
  deriving Repr, DecidableEq

/-- The zero `State{}`, returned by `Load` when the file is absent. -/
def PState.empty : PState := ⟨"", 0, "", "", 0, 0, 0⟩

/-- `json.MarshalIndent(state, ...)` as a JSON tree: an object with the
struct's tag names in field order. -/
def marshalPState (s : PState) : JVal :=
  .obj [("idx_path", .str s.idxPath),
        ("idx_offset", .num s.idxOffset),
        ("cur_gz", .str s.curGz),
        ("last_file", .str s.lastFile),
        ("last_frame", .num ((s.lastFrame : Int))),
        ("last_commit_at", .num s.lastCommitAt),
        ("last_send_at", .num s.lastSendAt)]

/-- First binding of a key in a JSON object's field list. -/
def jLookup (fields : List (String × JVal)) (k : String) : Option JVal :=
  (fields.find? fun p => p.1 = k).map Prod.snd

/-- Decode a string field the way `json.Unmarshal` fills a `string` struct
field: absent or `null` leaves the zero value, a string is taken verbatim,
anything else is a type error. -/
def decodeStr : Option JVal → Option String
  | none => some ""
  | some .null => some ""
  | some (.str s) => some s
  | some _ => none

/-- Decode an `int64` field: absent or `null` gives zero, an integer is
taken verbatim, anything else is a type error. -/
def decodeInt : Option JVal → Option Int
  | none => some 0
  | some .null => some 0
  | some (.num n) => some n
  | some _ => none

/-- Decode a `uint64` field: like `decodeInt`, but a negative number is a
type error. -/
def decodeNat : Option JVal → Option Nat
  | none => some 0
  | some .null => some 0
  | some (.num n) => if n < 0 then none else some n.toNat
  | some _ => none

/-- `json.Unmarshal` into the `State` struct: requires an object, then
decodes each tagged field. -/
def unmarshalPState : JVal → Option PState
  | .obj fields => do
      let idxPath ← decodeStr (jLookup fields "idx_path")
      let idxOffset ← decodeInt (jLookup fields "idx_offset")
      let curGz ← decodeStr (jLookup fields "cur_gz")
      let lastFile ← decodeStr (jLookup fields "last_file")
      let lastFrame ← decodeNat (jLookup fields "last_frame")
      let lastCommitAt ← decodeInt (jLookup fields "last_commit_at")
      let lastSendAt ← decodeInt (jLookup fields "last_send_at")
      pure ⟨idxPath, idxOffset, curGz, lastFile, lastFrame, lastCommitAt, lastSendAt⟩
  | _ => none

/-- The state directory as seen by the store: the contents of `status.json`
and of `status.json.tmp` (`none` = file absent).  Contents are kept as JSON
trees; `Save` only ever writes marshalled states. -/
structure StateFs where
  cur : Option JVal
  tmp : Option JVal
  deriving Repr

/-- `FileRepository.Save`: write the marshalled state to `status.json.tmp`,
then atomically rename it over `status.json`. -/
def stateSave (fs : StateFs) (s : PState) : StateFs :=
  let afterWrite : StateFs := { fs with tmp := some (marshalPState s) }
  { cur := afterWrite.tmp, tmp := none }

/-- `Load` errors: only the unmarshal failure is reachable in this model
(an absent file is not an error). -/
inductive LoadErr where
  | badJson
  deriving Repr, DecidableEq

/-- `FileRepository.Load`: absent file gives the empty state and no error;
otherwise unmarshal the contents. -/
def stateLoad (fs : StateFs) : Except LoadErr PState :=
  match fs.cur with
  | none => .ok PState.empty
  | some j =>
      match unmarshalPState j with
      | some s => .ok s
      | none => .error .badJson

/-! ## Index reader

Embeds the `IndexReader` of `pkg/wal` (`Next`, `advanceToIndex`,
`nextIndexAfter`): a resumable tail over index sidecar files.

The file system as the reader sees it: index files are lists of
newline-terminated lines, each carried as its byte length together with the
result of `json.Unmarshal` on it (`none` = malformed); blob files are
described by their size — `preadSection` reads a byte range and only the
size decides between a full read, a partial read (`io.ErrUnexpectedEOF`),
and a read of nothing (`io.EOF`).  The buffered reader's position inside the
current index is the list of unread lines. -/

/-- One index line: its length in bytes (newline included) and its parse
result. -/
structure IdxLine where
  rawLen : Nat
  parsed : Option FrameMeta
  deriving Repr, DecidableEq

/-- The WAL directory tree as the reader sees it. -/
structure WalFs where
  idxFiles : List (Path × List IdxLine)
  blobs : List (Path × Nat)
  dirs : List (Path × List DirEnt)
  deriving Repr

/-- Contents of an index file (`os.Open` + buffered read). -/
def WalFs.idxContent (fs : WalFs) (p : Path) : Option (List IdxLine) :=
  (fs.idxFiles.find? fun e => e.1 = p).map Prod.snd

/-- `os.Stat` existence check for an index file. -/
def WalFs.statIdx (fs : WalFs) (p : Path) : Bool :=
  (fs.idxContent p).isSome

/-- Size of a blob file, `none` when `os.Open` would fail (absent file). -/
def WalFs.blobSize (fs : WalFs) (p : Path) : Option Nat :=
  (fs.blobs.find? fun e => e.1 = p).map Prod.snd

/-- `os.ReadDir`. -/
def WalFs.readDir (fs : WalFs) (p : Path) : Option (List DirEnt) :=
  (fs.dirs.find? fun e => e.1 = p).map Prod.snd

/-- An open blob handle: the name it was opened under, the size it had at
open time, and whether `Close` has been called on it. -/
structure GzHandle where
  name : String
  size : Nat
  closed : Bool
  deriving Repr, DecidableEq

/-- The mutable state of `IndexReader`: current index path, whether the
index handle is open, the unread lines of the current index (the buffered
reader's position), the committed byte offset `idxOff`, the blob handle
`gzFile`, and the blob name `curGz` (`""` = unset). -/
structure Reader where
  idxPath : Path
  idxOpen : Bool
  stream : List IdxLine
  idxOff : Nat
  gz : Option GzHandle
  curGz : String
  deriving Repr, DecidableEq

/-- `CurrentPosition()`: `(idxPath, idxOff, curGz)`. -/
def Reader.currentPosition (r : Reader) : Path × Nat × String :=
  (r.idxPath, r.idxOff, r.curGz)

/-- The error outcomes of `Next`, by the Go error value returned:
`eof` is `io.EOF` (end of data for this tick — also what `io.ReadFull`
returns when the blob has nothing at the requested offset), `badLine` the
wrapped `bad index line` error, `openBlob` the `os.Open` failure on the
referenced blob, `closedFile` a read through a closed handle, `shortRead`
`io.ErrUnexpectedEOF` from a partial `ReadFull`. -/
inductive ReadErr where
  | eof
  | badLine
  | openBlob
  | closedFile
  | shortRead
  deriving Repr, DecidableEq

/-- `nextIndexAfter` (`pkg/wal`): the next index path after the current one.
Parse `seg-%06d.wal.idx` from the base name; try `seg-(N+1)` in the same
directory; otherwise scan the parent for the smallest day directory strictly
after the current one and take its `seg-000001.wal.idx` if it exists.
`none` merges the `ok=false` and error returns: `Next` discards the error
(`if next, ok, _ := nextIndexAfter(...)`). -/
def nextIndexAfter (fs : WalFs) (curIdxPath : Path) : Option Path :=
  let dayDir := dirOf curIdxPath
  match parseSegIdxName (baseOf curIdxPath) with
  | none => none
  | some cur =>
    let cand := dayDir ++ [segIdxName (cur + 1)]
    if fs.statIdx cand then some cand
    else
      let parent := dirOf dayDir
      match fs.readDir parent with
      | none => none
      | some ents =>
        let curDay := baseOf dayDir
        let nextDay := ents.foldl (fun acc e =>
          if e.isDir = true ∧ isDayDirName e.name = true ∧ curDay < e.name ∧
              (acc = "" ∨ e.name < acc) then e.name else acc) ""
        if nextDay = "" then none
        else
          let first := parent ++ [nextDay, segIdxName 1]
          if fs.statIdx first then some first else none

/-- The blob-ensuring block of `Next`: if no blob is open or the open one is
not `fm.file`, close the old handle and open `dirname(idxPath)/fm.file`.
Returns the updated reader and whether the needed blob is now open (`false`
= the `os.Open` failed; the old handle stays recorded, closed, and `curGz`
keeps its old value). -/
def ensureGz (fs : WalFs) (r : Reader) (fm : FrameMeta) : Reader × Bool :=
  if r.gz.isNone ∨ r.curGz ≠ fm.file then
    let rClosed := { r with gz := r.gz.map fun h => { h with closed := true } }
    match fs.blobSize (dirOf r.idxPath ++ [fm.file]) with
    | none => (rClosed, false)
    | some sz =>
        ({ rClosed with gz := some ⟨fm.file, sz, false⟩, curGz := fm.file }, true)
  else (r, true)

/-- `IndexReader.Next` with explicit recursion fuel (the Go recursion
terminates because rotation strictly advances through finitely many files).
On success the returned pair is the parsed frame and the index-line length;
the compressed payload is the `fm.len`-byte range `[fm.off, fm.off+fm.len)`
of the open blob. -/
def nextR (fs : WalFs) : Nat → Reader → Reader × Except ReadErr (FrameMeta × Nat)
  | 0, r => (r, .error .eof)
  | fuel + 1, r =>
    match r.stream with
    | [] =>
        if r.idxOpen then
          -- EOF on the current index: try to advance once, then re-enter
          match nextIndexAfter fs r.idxPath with
          | some next =>
              -- advanceToIndex: close the index and blob handles first
              match fs.idxContent next with
              | none =>
                  -- openIdx failed: report EOF, position unchanged
                  ({ r with idxOpen := false, gz := none, curGz := "" },
                    .error .eof)
              | some lines =>
                  nextR fs fuel
                    { idxPath := next, idxOpen := true, stream := lines,
                      idxOff := 0, gz := none, curGz := "" }
          | none => (r, .error .eof)
        else (r, .error .closedFile)
    | line :: rest =>
        let r1 : Reader := { r with stream := rest }
        match line.parsed with
        | none => (r1, .error .badLine)
        | some fm =>
            match ensureGz fs r1 fm with
            | (r2, false) => (r2, .error .openBlob)
            | (r2, true) =>
                match r2.gz with
                | none => (r2, .error .closedFile)
                | some h =>
                    if h.closed then (r2, .error .closedFile)
                    else if fm.len = 0 ∨ fm.off + fm.len ≤ h.size then
                      ({ r2 with idxOff := r2.idxOff + line.rawLen },
                        .ok (fm, line.rawLen))
                    else if h.size ≤ fm.off then (r2, .error .eof)
                    else (r2, .error .shortRead)

/-- The spec's wording of the rotation choice (§4.1 "Rotation and
ordering"): look for `seg-(N+1)` in the current day directory; else take
`seg-000001.wal.idx` of the lexicographically smallest day strictly greater
than the current day; else report no newer index. -/
def nextIndexSpecChoice (fs : WalFs) (curIdxPath : Path) : Option Path :=
  let dayDir := dirOf curIdxPath
  match parseSegIdxName (baseOf curIdxPath) with
  | none => none
  | some cur =>
    let cand := dayDir ++ [segIdxName (cur + 1)]
    if fs.statIdx cand then some cand
    else
      let parent := dirOf dayDir
      match fs.readDir parent with
      | none => none
      | some ents =>
        let curDay := baseOf dayDir
        let laterDays := (ents.filter fun e =>
          e.isDir && isDayDirName e.name && decide (curDay < e.name)).map (·.name)
        match laterDays.min? with
        | none => none
        | some d =>
            let first := parent ++ [d, segIdxName 1]
            if fs.statIdx first then some first else none

end Walship

namespace Walship

/-! ## Theorems: lifecycle (claim C2) -/

/-- **C2** (code evaluated at the failing input).  The spec's table makes
`Starting → Stopping` a valid transition ("Early Stop() during init"), and the
repository's own lifecycle test expects it to succeed, but
`Lifecycle.TransitionTo` (and `DefaultManager.TransitionTo`) rejects it with
`ErrAlreadyRunning`: from `Starting` only `Running` and `Crashed` are
accepted.  Every other pair of states is accepted exactly as the spec's table
says. -/
theorem transitionTo_starting_stopping_rejected :
    transitionTo LState.starting LState.stopping = .error .alreadyRunning ∧
    (∀ a b : LState, ¬(a = LState.starting ∧ b = LState.stopping) →
      ((transitionTo a b).isOk = specTableAllows a b)) := by
  constructor
  · rfl
  · decide

/-- Witness for `transitionTo_starting_stopping_rejected` at a pair outside
the exceptional one: `Running → Stopping` matches the table. -/
theorem transitionTo_starting_stopping_rejected_witness :
    (¬(LState.running = LState.starting ∧ LState.stopping = LState.stopping)) ∧
    (transitionTo LState.running LState.stopping).isOk =
      specTableAllows LState.running LState.stopping := by
  refine ⟨by decide, ?_⟩
  exact transitionTo_starting_stopping_rejected.2 LState.running LState.stopping (by decide)

/-! ## Theorems: batcher (claims C4 and C10) -/

/-- **C4**.  For a batcher with `max_batch_bytes > 0`, `Add` follows the
spec's three cases: a frame alone larger than the cap is appended and the
size trigger fires (send-alone); a frame that would push the total past the
cap is refused, the batch is unchanged, and the trigger fires (flush first);
otherwise the frame is appended and no trigger fires. -/
theorem batcher_add_cases (b : Batcher) (f : FrameMeta) (compressed : List Nat)
    (idxLineLen : Nat) (hpos : 0 < b.maxBatchBytes) :
    (b.maxBatchBytes < (compressed.length : Int) →
      b.add f compressed idxLineLen =
        ({ b with batch := b.batch.add f compressed idxLineLen }, true)) ∧
    ((compressed.length : Int) ≤ b.maxBatchBytes →
      b.maxBatchBytes < (b.batch.totalBytes : Int) + (compressed.length : Int) →
      b.add f compressed idxLineLen = (b, true)) ∧
    ((compressed.length : Int) ≤ b.maxBatchBytes →
      (b.batch.totalBytes : Int) + (compressed.length : Int) ≤ b.maxBatchBytes →
      b.add f compressed idxLineLen =
        ({ b with batch := b.batch.add f compressed idxLineLen }, false)) := by
  refine ⟨fun hbig => ?_, fun hsmall hover => ?_, fun hsmall hfit => ?_⟩
  · simp [Batcher.add, hpos, hbig]
  · simp [Batcher.add, hpos, hover, not_lt.mpr hsmall]
  · simp [Batcher.add, hpos, not_lt.mpr hsmall, not_lt.mpr hfit]

/-- Witness for `batcher_add_cases` at a concrete batcher with cap 100,
a pending 60-byte frame, and a fresh 60-byte add (the refuse case). -/
theorem batcher_add_cases_witness :
    (0 : Int) < (100 : Int) ∧
    ((Batcher.mk (Batch.new.add ⟨"a", 1, 0, 60, 1, 0, 0, 0⟩ (List.replicate 60 0) 10) 100).add
        ⟨"b", 2, 0, 60, 1, 0, 0, 0⟩ (List.replicate 60 0) 12 =
      (Batcher.mk (Batch.new.add ⟨"a", 1, 0, 60, 1, 0, 0, 0⟩ (List.replicate 60 0) 10) 100, true)) := by
  refine ⟨by decide, ?_⟩
  have h := batcher_add_cases
    (Batcher.mk (Batch.new.add ⟨"a", 1, 0, 60, 1, 0, 0, 0⟩ (List.replicate 60 0) 10) 100)
    ⟨"b", 2, 0, 60, 1, 0, 0, 0⟩ (List.replicate 60 0) 12 (by decide)
  exact h.2.1 (by decide) (by decide)

/-- Helper: with a non-positive cap, a single `Add` appends the frame and
reports no size trigger (both `maxBatchBytes > 0` guards are false). -/
theorem Batcher.add_nonpos_eq (b : Batcher) (hnp : b.maxBatchBytes ≤ 0)
    (f : FrameMeta) (compressed : List Nat) (idxLineLen : Nat) :
    b.add f compressed idxLineLen =
      ({ b with batch := b.batch.add f compressed idxLineLen }, false) := by
  have h0 : ¬ 0 < b.maxBatchBytes := not_lt.mpr hnp
  simp [Batcher.add, h0]

/-- Helper: folding `Add` with a non-positive cap batches every offered
frame in order. -/
theorem batcher_foldl_nonpos (items : List (FrameMeta × List Nat × Nat)) :
    ∀ b : Batcher, b.maxBatchBytes ≤ 0 →
      (items.foldl (fun acc it => (acc.add it.1 it.2.1 it.2.2).1) b).batch.frames =
        b.batch.frames ++ items.map (·.1) := by
  induction items with
  | nil => intro b _; simp
  | cons it rest ih =>
      intro b hnp
      simp only [List.foldl_cons, List.map_cons]
      have h1 : (b.add it.1 it.2.1 it.2.2).1 =
          { b with batch := b.batch.add it.1 it.2.1 it.2.2 } := by
        rw [Batcher.add_nonpos_eq b hnp]
      rw [h1, ih { b with batch := b.batch.add it.1 it.2.1 it.2.2 } hnp]
      simp [Batch.add]

/-- **C10**.  With `max_batch_bytes ≤ 0` neither size guard can fire:
every `Add` appends the frame and returns `false`, and folding `Add` over any
frame sequence batches every frame, so no size trigger ever fires and the
byte total is unbounded (flushes can come only from the time triggers). -/
theorem batcher_add_nonpositive_cap (b : Batcher) (hnp : b.maxBatchBytes ≤ 0) :
    (∀ (f : FrameMeta) (compressed : List Nat) (idxLineLen : Nat),
      b.add f compressed idxLineLen =
        ({ b with batch := b.batch.add f compressed idxLineLen }, false)) ∧
    (∀ items : List (FrameMeta × List Nat × Nat),
      (items.foldl (fun acc it => (acc.add it.1 it.2.1 it.2.2).1) b).batch.frames =
        b.batch.frames ++ items.map (·.1)) :=
  ⟨fun f compressed idxLineLen => Batcher.add_nonpos_eq b hnp f compressed idxLineLen,
   fun items => batcher_foldl_nonpos items b hnp⟩

/-- Witness for `batcher_add_nonpositive_cap` at a batcher with cap 0 and a
concrete two-frame sequence. -/
theorem batcher_add_nonpositive_cap_witness :
    ((Batcher.mk Batch.new 0).maxBatchBytes ≤ 0) ∧
    ((([(⟨"a", 1, 0, 5, 1, 0, 0, 0⟩, List.replicate 5 0, 10),
        (⟨"b", 2, 5, 7, 1, 0, 0, 0⟩, List.replicate 7 0, 11)] :
          List (FrameMeta × List Nat × Nat)).foldl
        (fun acc it => (acc.add it.1 it.2.1 it.2.2).1)
        (Batcher.mk Batch.new 0)).batch.frames =
      [⟨"a", 1, 0, 5, 1, 0, 0, 0⟩, ⟨"b", 2, 5, 7, 1, 0, 0, 0⟩]) := by
  have h := batcher_add_nonpositive_cap (Batcher.mk Batch.new 0) (by decide)
  refine ⟨by decide, ?_⟩
  have h2 := h.2 [(⟨"a", 1, 0, 5, 1, 0, 0, 0⟩, List.replicate 5 0, 10),
    (⟨"b", 2, 5, 7, 1, 0, 0, 0⟩, List.replicate 7 0, 11)]
  simpa [Batch.new] using h2

/-! ## Theorems: frame sender (claim C7) -/

/-- Helper: the sender's byte-write loop produces the concatenation of the
compressed payloads, in list order. -/
theorem foldl_append_eq_join (frames : List FrameData) :
    ∀ init : List Nat,
      frames.foldl (fun acc fd => acc ++ fd.compressedData) init =
        init ++ (frames.map (·.compressedData)).flatten := by
  induction frames with
  | nil => intro init; simp
  | cons fd rest ih =>
      intro init
      simp only [List.foldl_cons, List.map_cons, List.flatten]
      rw [ih (init ++ fd.compressedData)]
      simp

/-- **C7**.  For a non-empty batch, the request body built by
`FrameSender.Send` has: a manifest that is a JSON array with exactly one
descriptor per frame, in batch order, each descriptor carrying the canonical
field names `file, frame, off, len, recs, first_ts, last_ts, crc32`; and a
`frames` part that is the concatenation of every frame's compressed bytes in
the same batch order — so the order of frames on the wire equals their read
order. -/
theorem sender_wire_format (frames : List FrameData) (_hne : frames ≠ []) :
    (buildSendRequest frames).manifestPart =
      .arr (frames.map fun fd => .obj (frameMetaFields fd.frame)) ∧
    (∀ fd ∈ frames, (frameMetaFields fd.frame).map Prod.fst =
      ["file", "frame", "off", "len", "recs", "first_ts", "last_ts", "crc32"]) ∧
    (buildSendRequest frames).framesPart = (frames.map (·.compressedData)).flatten := by
  refine ⟨?_, fun fd _ => rfl, ?_⟩
  · simp [buildSendRequest, buildManifest, List.map_map]
  · have h := foldl_append_eq_join frames []
    simpa [buildSendRequest] using h

/-- Witness for `sender_wire_format` at a concrete two-frame batch. -/
theorem sender_wire_format_witness :
    ([(⟨⟨"seg-000001.wal.gz", 1, 0, 2, 1, 5, 6, 9⟩, [7, 8]⟩ : FrameData),
      ⟨⟨"seg-000001.wal.gz", 2, 2, 3, 1, 6, 7, 9⟩, [1, 2, 3]⟩] ≠
        ([] : List FrameData)) ∧
    (buildSendRequest
        [⟨⟨"seg-000001.wal.gz", 1, 0, 2, 1, 5, 6, 9⟩, [7, 8]⟩,
         ⟨⟨"seg-000001.wal.gz", 2, 2, 3, 1, 6, 7, 9⟩, [1, 2, 3]⟩]).framesPart =
      [7, 8, 1, 2, 3] := by
  refine ⟨by simp, ?_⟩
  have h := sender_wire_format
    [⟨⟨"seg-000001.wal.gz", 1, 0, 2, 1, 5, 6, 9⟩, [7, 8]⟩,
     ⟨⟨"seg-000001.wal.gz", 2, 2, 3, 1, 6, 7, 9⟩, [1, 2, 3]⟩] (by simp)
  rw [h.2.2]
  rfl

/-! ## Theorems: state store (claim C6) -/

/-- Helper: decoding a `uint64` field written from a `Nat` recovers it. -/
theorem decodeNat_ofNat (x : Nat) :
    decodeNat (some (.num (x : Int))) = some x := by
  have h : ¬ (x : Int) < 0 := by omega
  simp [decodeNat, h]

/-- Helper: unmarshalling a marshalled state recovers it field for field. -/
theorem unmarshalPState_marshalPState (s : PState) :
    unmarshalPState (marshalPState s) = some s := by
  simp [marshalPState, unmarshalPState, jLookup, List.find?, decodeStr,
    decodeInt, decodeNat_ofNat]

/-- **C6**.  `Save` followed by `Load` returns the saved state (round trip
through the atomically renamed `status.json`), and `Load` on an absent state
file returns the empty state without an error. -/
theorem state_save_load_roundtrip (s : PState) (fs : StateFs) :
    stateLoad (stateSave fs s) = .ok s ∧
    stateLoad ⟨none, none⟩ = .ok PState.empty := by
  constructor
  · simp [stateSave, stateLoad, unmarshalPState_marshalPState]
  · rfl

end Walship

namespace Walship

/-! ## Theorems: reader blob-not-found handling (claim C3) -/

/-- **C3 counterexample.**  On a concrete input whose single index line
references a blob that does not exist, `Next` does not return `EndOfData`:
it returns the `os.Open` failure itself (`Next` lines 110–122 return `err`
unchanged), and that error is distinct from `io.EOF`. -/
theorem reader_missing_blob_counterexample :
    (nextR ⟨[], [], []⟩ 2
        ⟨["wal", "2025-01-02", "seg-000001.wal.idx"], true,
          [⟨20, some ⟨"seg-000001.wal.gz", 1, 0, 12, 1, 1, 1, 0⟩⟩], 0, none, ""⟩).2 =
      .error .openBlob ∧
    (ReadErr.openBlob ≠ ReadErr.eof) := by
  exact ⟨rfl, by decide⟩

/-- **C3 amended.**  When a just-read index line parses to a frame whose
blob must be (re)opened and the blob file is absent, `Next` returns the
blob-open error — a non-`EndOfData` error — and leaves the reported position
(`idx_path`, `idx_offset`, `cur_gz`) unchanged; the agent loop's non-EOF
read-error branch sleeps `poll_interval` and retries, so the caller still
polls and retries, but the returned error is not `EndOfData` (in particular,
one-shot mode does not exit on it). -/
theorem reader_missing_blob_error (fs : WalFs) (r : Reader) (fuel : Nat)
    (line : IdxLine) (rest : List IdxLine) (fm : FrameMeta)
    (hstream : r.stream = line :: rest) (hparse : line.parsed = some fm)
    (hswitch : r.gz = none ∨ r.curGz ≠ fm.file)
    (hmiss : fs.blobSize (dirOf r.idxPath ++ [fm.file]) = none) :
    (nextR fs (fuel + 1) r).2 = .error .openBlob ∧
    (ReadErr.openBlob ≠ ReadErr.eof) ∧
    (nextR fs (fuel + 1) r).1.idxPath = r.idxPath ∧
    (nextR fs (fuel + 1) r).1.idxOff = r.idxOff ∧
    (nextR fs (fuel + 1) r).1.curGz = r.curGz := by
  have hc : (({ r with stream := rest } : Reader).gz.isNone ∨
      ({ r with stream := rest } : Reader).curGz ≠ fm.file) := by
    rcases hswitch with h | h
    · left; simp [h]
    · right; exact h
  have hE : ensureGz fs { r with stream := rest } fm =
      ({ r with
          stream := rest
          gz := r.gz.map (fun h => { h with closed := true }) }, false) := by
    unfold ensureGz
    rw [if_pos hc]
    simp [hmiss]
  have hres : nextR fs (fuel + 1) r =
      ({ r with
          stream := rest
          gz := r.gz.map (fun h => { h with closed := true }) },
        .error .openBlob) := by
    simp only [nextR, hstream, hparse]
    rw [hE]
  rw [hres]
  exact ⟨rfl, by decide, rfl, rfl, rfl⟩

/-- Witness for `reader_missing_blob_error` at the concrete input of the
counterexample. -/
theorem reader_missing_blob_error_witness :
    (nextR ⟨[], [], []⟩ 1
        ⟨["wal", "2025-01-02", "seg-000001.wal.idx"], true,
          [⟨20, some ⟨"seg-000001.wal.gz", 1, 0, 12, 1, 1, 1, 0⟩⟩], 7, none, ""⟩).2 =
      .error .openBlob ∧
    (nextR ⟨[], [], []⟩ 1
        ⟨["wal", "2025-01-02", "seg-000001.wal.idx"], true,
          [⟨20, some ⟨"seg-000001.wal.gz", 1, 0, 12, 1, 1, 1, 0⟩⟩], 7, none, ""⟩).1.idxOff = 7 := by
  have h := reader_missing_blob_error ⟨[], [], []⟩
    ⟨["wal", "2025-01-02", "seg-000001.wal.idx"], true,
      [⟨20, some ⟨"seg-000001.wal.gz", 1, 0, 12, 1, 1, 1, 0⟩⟩], 7, none, ""⟩
    0 ⟨20, some ⟨"seg-000001.wal.gz", 1, 0, 12, 1, 1, 1, 0⟩⟩ []
    ⟨"seg-000001.wal.gz", 1, 0, 12, 1, 1, 1, 0⟩ rfl rfl (Or.inl rfl) rfl
  exact ⟨h.1, h.2.2.2.1⟩

end Walship

namespace Walship

/-! ## Theorems: reader position on failed Next (claim C5) -/

/-- **C5 counterexample.**  Two concrete failing `Next` calls whose reported
position changes.  First, a short read on a blob the reader has just
switched to: `Next` records the newly opened blob in `curGz` before the
range read, so the failed call changes `CurrentPosition()`'s third
component.  Second, a malformed first line of the next index file reached by
rotation: the failed call has already advanced `idx_path` and reset
`idx_offset` to 0. -/
theorem reader_position_counterexample :
    ((nextR ⟨[], [(["wal", "2025-01-02", "seg-000001.wal.gz"], 5)], []⟩ 2
        ⟨["wal", "2025-01-02", "seg-000001.wal.idx"], true,
          [⟨15, some ⟨"seg-000001.wal.gz", 2, 0, 10, 1, 0, 0, 0⟩⟩], 40,
          some ⟨"old.gz", 100, false⟩, "old.gz"⟩).2 = .error .shortRead ∧
      (nextR ⟨[], [(["wal", "2025-01-02", "seg-000001.wal.gz"], 5)], []⟩ 2
        ⟨["wal", "2025-01-02", "seg-000001.wal.idx"], true,
          [⟨15, some ⟨"seg-000001.wal.gz", 2, 0, 10, 1, 0, 0, 0⟩⟩], 40,
          some ⟨"old.gz", 100, false⟩, "old.gz"⟩).1.currentPosition ≠
        (Reader.mk ["wal", "2025-01-02", "seg-000001.wal.idx"] true
          [⟨15, some ⟨"seg-000001.wal.gz", 2, 0, 10, 1, 0, 0, 0⟩⟩] 40
          (some ⟨"old.gz", 100, false⟩) "old.gz").currentPosition) ∧
    ((nextR ⟨[(["wal", "2025-01-02", "seg-000001.wal.idx"], []),
          (["wal", "2025-01-02", "seg-000002.wal.idx"], [⟨7, none⟩])], [], []⟩ 3
        ⟨["wal", "2025-01-02", "seg-000001.wal.idx"], true, [], 30, none, ""⟩).2 =
        .error .badLine ∧
      (nextR ⟨[(["wal", "2025-01-02", "seg-000001.wal.idx"], []),
          (["wal", "2025-01-02", "seg-000002.wal.idx"], [⟨7, none⟩])], [], []⟩ 3
        ⟨["wal", "2025-01-02", "seg-000001.wal.idx"], true, [], 30, none, ""⟩).1.idxPath ≠
        ["wal", "2025-01-02", "seg-000001.wal.idx"] ∧
      (nextR ⟨[(["wal", "2025-01-02", "seg-000001.wal.idx"], []),
          (["wal", "2025-01-02", "seg-000002.wal.idx"], [⟨7, none⟩])], [], []⟩ 3
        ⟨["wal", "2025-01-02", "seg-000001.wal.idx"], true, [], 30, none, ""⟩).1.idxOff ≠ 30) := by
  refine ⟨⟨rfl, by decide⟩, rfl, by decide, by decide⟩

/-- Helper: the blob-ensuring block never touches the index position. -/
theorem ensureGz_idxFields (fs : WalFs) (r : Reader) (fm : FrameMeta) :
    (ensureGz fs r fm).1.idxPath = r.idxPath ∧
    (ensureGz fs r fm).1.idxOff = r.idxOff := by
  unfold ensureGz
  split
  · split
    · exact ⟨rfl, rfl⟩
    · exact ⟨rfl, rfl⟩
  · exact ⟨rfl, rfl⟩

/-- Helper: `ensureGz_idxFields`, stated from a result equation. -/
theorem ensureGz_idxFields_of_eq {fs : WalFs} {r : Reader} {fm : FrameMeta}
    {r2 : Reader} {b : Bool} (heq : ensureGz fs r fm = (r2, b)) :
    r2.idxPath = r.idxPath ∧ r2.idxOff = r.idxOff := by
  have h := ensureGz_idxFields fs r fm
  rw [heq] at h
  exact h

/-- **C5 amended.**  `idx_offset` is advanced, by exactly the index-line
length, only when `Next()` successfully returns a frame.  On any call the
reported `(idx_path, idx_offset)` either is unchanged (plus the line length
on success), or the call rotated to a new index file and `idx_offset` is
the offset within that new file (0 on failure, the first line length on
success).  `cur_gz` may additionally change on a failing call after the
reader opened a different blob (short read), as the counterexample shows. -/
theorem reader_offset_discipline (fs : WalFs) (fuel : Nat) :
    ∀ (r r' : Reader) (res : Except ReadErr (FrameMeta × Nat)),
      nextR fs fuel r = (r', res) →
      ((r'.idxPath = r.idxPath ∧
          r'.idxOff = r.idxOff + (match res with | .ok (_, n) => n | .error _ => 0)) ∨
        r'.idxOff = (match res with | .ok (_, n) => n | .error _ => 0)) := by
  induction fuel with
  | zero =>
      intro r r' res h
      simp only [nextR, Prod.mk.injEq] at h
      obtain ⟨rfl, hres⟩ := h
      left
      refine ⟨rfl, ?_⟩
      simp [← hres]
  | succ fuel ih =>
      intro r r' res h
      simp only [nextR] at h
      split at h
      · -- empty stream
        split at h
        · -- index handle open: try to advance
          split at h
          · -- nextIndexAfter found a next index
            split at h
            · -- openIdx on the next index failed: EOF, position unchanged
              simp only [Prod.mk.injEq] at h
              obtain ⟨rfl, hres⟩ := h
              left
              refine ⟨rfl, ?_⟩
              simp [← hres]
            · -- re-enter on the fresh reader: apply the induction hypothesis
              have hrec := ih _ r' res h
              rcases hrec with ⟨-, hoff⟩ | hoff
              · right
                simpa using hoff
              · right
                exact hoff
          · -- no newer index: EOF, position unchanged
            simp only [Prod.mk.injEq] at h
            obtain ⟨rfl, hres⟩ := h
            left
            refine ⟨rfl, ?_⟩
            simp [← hres]
        · -- closed index handle
          simp only [Prod.mk.injEq] at h
          obtain ⟨rfl, hres⟩ := h
          left
          refine ⟨rfl, ?_⟩
          simp [← hres]
      · -- a line was read
        split at h
        · -- malformed line
          simp only [Prod.mk.injEq] at h
          obtain ⟨rfl, hres⟩ := h
          left
          refine ⟨rfl, ?_⟩
          simp [← hres]
        · -- parsed line
          split at h
          · -- blob open failed
            rename_i r2 heq
            have hf := ensureGz_idxFields_of_eq heq
            simp only [Prod.mk.injEq] at h
            obtain ⟨rfl, hres⟩ := h
            left
            refine ⟨hf.1, ?_⟩
            rw [← hres]
            simpa using hf.2
          · -- blob open (or already open)
            rename_i r2 heq
            have hf := ensureGz_idxFields_of_eq heq
            split at h
            · -- gz handle nil (unreachable defensive branch)
              simp only [Prod.mk.injEq] at h
              obtain ⟨rfl, hres⟩ := h
              left
              refine ⟨hf.1, ?_⟩
              rw [← hres]
              simpa using hf.2
            · split at h
              · -- closed handle
                simp only [Prod.mk.injEq] at h
                obtain ⟨rfl, hres⟩ := h
                left
                refine ⟨hf.1, ?_⟩
                rw [← hres]
                simpa using hf.2
              · split at h
                · -- successful range read: offset advances by the line length
                  simp only [Prod.mk.injEq] at h
                  obtain ⟨rfl, hres⟩ := h
                  left
                  constructor
                  · exact hf.1
                  · rw [← hres]
                    simpa using hf.2
                · split at h
                  · -- ReadFull at/after end of blob: io.EOF
                    simp only [Prod.mk.injEq] at h
                    obtain ⟨rfl, hres⟩ := h
                    left
                    refine ⟨hf.1, ?_⟩
                    rw [← hres]
                    simpa using hf.2
                  · -- partial read: io.ErrUnexpectedEOF
                    simp only [Prod.mk.injEq] at h
                    obtain ⟨rfl, hres⟩ := h
                    left
                    refine ⟨hf.1, ?_⟩
                    rw [← hres]
                    simpa using hf.2

/-- Witness for `reader_offset_discipline`: a concrete failing call (missing
blob) leaves the offset unchanged. -/
theorem reader_offset_discipline_witness :
    nextR ⟨[], [], []⟩ 1
        ⟨["wal", "2025-01-02", "seg-000001.wal.idx"], true,
          [⟨20, some ⟨"seg-000001.wal.gz", 1, 0, 12, 1, 1, 1, 0⟩⟩], 7, none, ""⟩ =
      (⟨["wal", "2025-01-02", "seg-000001.wal.idx"], true, [], 7, none, ""⟩,
        .error .openBlob) ∧
    ((⟨["wal", "2025-01-02", "seg-000001.wal.idx"], true, [], 7, none, ""⟩ : Reader).idxPath =
        ["wal", "2025-01-02", "seg-000001.wal.idx"] ∧
      (7 : Nat) = 7 + 0) ∨ (7 : Nat) = 0 := by
  left
  have h := reader_offset_discipline ⟨[], [], []⟩ 1
    ⟨["wal", "2025-01-02", "seg-000001.wal.idx"], true,
      [⟨20, some ⟨"seg-000001.wal.gz", 1, 0, 12, 1, 1, 1, 0⟩⟩], 7, none, ""⟩
    ⟨["wal", "2025-01-02", "seg-000001.wal.idx"], true, [], 7, none, ""⟩
    (.error .openBlob) rfl
  refine ⟨rfl, ?_⟩
  rcases h with ⟨-, hoff⟩ | hoff
  · simp
  · simp at hoff

end Walship

namespace Walship

/-! ## Theorems: rotation choice (claim C9) -/

/-- Helper: a day-directory name is never the empty string. -/
theorem isDayDirName_ne_empty {s : String} (h : isDayDirName s = true) :
    s ≠ "" :=
  fun he => by rw [he] at h; exact absurd h (by decide)

/-- Helper: `min` with a seed distributes over a left fold of `min`. -/
theorem foldl_min_min (as : List String) :
    ∀ x a : String, as.foldl min (min x a) = min x (as.foldl min a) := by
  induction as with
  | nil => intro x a; rfl
  | cons b bs ih =>
      intro x a
      simp only [List.foldl_cons]
      rw [min_assoc, ih]

/-- Helper: a left fold of `min` equals `min?` of the list combined with
the seed. -/
theorem foldl_min_eq_minQ (l : List String) (x : String) :
    l.foldl min x =
      (match l.min? with
       | none => x
       | some m => min x m) := by
  cases l with
  | nil => rfl
  | cons a as =>
      simp only [List.min?_cons', List.foldl_cons]
      exact foldl_min_min as x a

/-- Helper: a conditional on a strict comparison is `min`. -/
theorem if_lt_eq_min (a b : String) : (if a < b then a else b) = min a b := by
  rcases lt_or_ge a b with h | h
  · rw [if_pos h, min_eq_left h.le]
  · rw [if_neg (not_lt.mpr h), min_eq_right h]

/-- Helper: the `nextDay` fold of `nextIndexAfter` computes the minimum of
the matching day names, with `""` as the "none found yet" sentinel. -/
theorem nextDayFold_eq_min (curDay : String) (ents : List DirEnt) :
    ∀ acc : String,
      ents.foldl (fun acc e =>
        if e.isDir = true ∧ isDayDirName e.name = true ∧ curDay < e.name ∧
            (acc = "" ∨ e.name < acc) then e.name else acc) acc =
      (match ((ents.filter fun e =>
            e.isDir && isDayDirName e.name && decide (curDay < e.name)).map (·.name)).min? with
       | none => acc
       | some m => if acc = "" then m else min m acc) := by
  induction ents with
  | nil => intro acc; rfl
  | cons e es ih =>
      intro acc
      have hiff : (e.isDir && isDayDirName e.name && decide (curDay < e.name)) = true ↔
          (e.isDir = true ∧ isDayDirName e.name = true ∧ curDay < e.name) := by
        simp [and_assoc]
      simp only [List.foldl_cons, List.filter_cons]
      by_cases hP : e.isDir = true ∧ isDayDirName e.name = true ∧ curDay < e.name
      · have hne : e.name ≠ "" := isDayDirName_ne_empty hP.2.1
        rw [if_pos (hiff.mpr hP)]
        simp only [List.map_cons, List.min?_cons']
        rw [foldl_min_eq_minQ]
        by_cases hacc : acc = ""
        · subst hacc
          rw [if_pos ⟨hP.1, hP.2.1, hP.2.2, Or.inl rfl⟩]
          rw [ih e.name]
          cases hmin : ((es.filter fun e =>
              e.isDir && isDayDirName e.name && decide (curDay < e.name)).map (·.name)).min? with
          | none => simp
          | some m =>
              simp only [if_neg hne, if_true]
              exact min_comm m e.name
        · have hstep : (if e.isDir = true ∧ isDayDirName e.name = true ∧ curDay < e.name ∧
              (acc = "" ∨ e.name < acc) then e.name else acc) =
              (if e.name < acc then e.name else acc) := by
            by_cases hlt : e.name < acc
            · rw [if_pos ⟨hP.1, hP.2.1, hP.2.2, Or.inr hlt⟩, if_pos hlt]
            · rw [if_neg (fun hc => hlt (hc.2.2.2.resolve_left hacc)), if_neg hlt]
          rw [hstep, if_lt_eq_min, ih (min e.name acc)]
          have hminne : min e.name acc ≠ "" := by
            rcases min_choice e.name acc with hch | hch <;> rw [hch]
            · exact hne
            · exact hacc
          cases hmin : ((es.filter fun e =>
              e.isDir && isDayDirName e.name && decide (curDay < e.name)).map (·.name)).min? with
          | none => simp [hacc]
          | some m =>
              simp only [if_neg hminne, if_neg hacc]
              rw [← min_assoc, min_comm m e.name]
      · rw [if_neg (fun hb => hP (hiff.mp hb))]
        have hstep : (if e.isDir = true ∧ isDayDirName e.name = true ∧ curDay < e.name ∧
            (acc = "" ∨ e.name < acc) then e.name else acc) = acc := by
          refine if_neg (fun hc => hP ⟨hc.1, hc.2.1, hc.2.2.1⟩)
        rw [hstep, ih acc]

/-- Helper: the fold's result, when non-empty, is one of the matching day
names, hence never `""` spuriously; packaged as: the minimum of the filtered
names is a non-empty string. -/
theorem filtered_min_ne_empty (curDay : String) (ents : List DirEnt)
    {m : String}
    (hmin : ((ents.filter fun e =>
        e.isDir && isDayDirName e.name && decide (curDay < e.name)).map (·.name)).min? =
      some m) : m ≠ "" := by
  have hmem := List.min?_mem (fun a b : String => min_choice a b) hmin
  obtain ⟨e, hef, hname⟩ := List.mem_map.mp hmem
  have := (List.mem_filter.mp hef).2
  have hday : isDayDirName e.name = true := by
    simp [and_assoc] at this
    exact this.2.1
  exact hname ▸ isDayDirName_ne_empty hday

/-- **C9**.  When the current index `seg-N` is exhausted (`stream` empty,
index handle open), the rotation choice of `nextIndexAfter` is exactly the
spec's: `seg-(N+1).wal.idx` in the same day directory if that file exists;
otherwise `seg-000001.wal.idx` of the lexicographically smallest day
directory strictly greater than the current day, if that file exists;
otherwise no newer index.  When no newer index is reported, `Next` returns
`EndOfData` with the reader unchanged; when one is found and opens, `Next`
re-enters at the start of that index. -/
theorem reader_rotation_choice (fs : WalFs) (r : Reader) (fuel : Nat)
    (hstream : r.stream = []) (hopen : r.idxOpen = true) :
    nextIndexAfter fs r.idxPath = nextIndexSpecChoice fs r.idxPath ∧
    (nextIndexAfter fs r.idxPath = none →
      nextR fs (fuel + 1) r = (r, .error .eof)) ∧
    (∀ (next : Path) (lines : List IdxLine),
      nextIndexAfter fs r.idxPath = some next →
      fs.idxContent next = some lines →
      nextR fs (fuel + 1) r =
        nextR fs fuel ⟨next, true, lines, 0, none, ""⟩) := by
  refine ⟨?_, ?_, ?_⟩
  · unfold nextIndexAfter nextIndexSpecChoice
    cases hp : parseSegIdxName (baseOf r.idxPath) with
    | none => rfl
    | some n =>
        simp only
        by_cases hstat : fs.statIdx (dirOf r.idxPath ++ [segIdxName (n + 1)]) = true
        · rw [if_pos hstat, if_pos hstat]
        · rw [if_neg hstat, if_neg hstat]
          cases hrd : fs.readDir (dirOf (dirOf r.idxPath)) with
          | none => rfl
          | some ents =>
              simp only
              rw [nextDayFold_eq_min (baseOf (dirOf r.idxPath)) ents ""]
              cases hmin : ((ents.filter fun e =>
                  e.isDir && isDayDirName e.name &&
                    decide (baseOf (dirOf r.idxPath) < e.name)).map (·.name)).min? with
              | none => rfl
              | some m =>
                  have hmne := filtered_min_ne_empty (baseOf (dirOf r.idxPath)) ents hmin
                  simp only [if_true]
                  rw [if_neg hmne]
  · intro hnone
    simp only [nextR, hstream, hopen, hnone, if_pos]
  · intro next lines hsome hcontent
    simp only [nextR, hstream, hopen, hsome, hcontent, if_pos]

/-- Witness for `reader_rotation_choice`: a concrete exhausted reader whose
same-day successor is absent but whose next day holds `seg-000001.wal.idx`. -/
theorem reader_rotation_choice_witness :
    ((Reader.mk ["wal", "2025-01-02", "seg-000003.wal.idx"] true [] 90 none "").stream =
      ([] : List IdxLine)) ∧
    ((Reader.mk ["wal", "2025-01-02", "seg-000003.wal.idx"] true [] 90 none "").idxOpen = true) ∧
    nextIndexAfter
        ⟨[(["wal", "2025-01-04", "seg-000001.wal.idx"], [])], [],
          [(["wal"], [⟨"2025-01-02", true⟩, ⟨"2025-01-06", true⟩, ⟨"2025-01-04", true⟩])]⟩
        ["wal", "2025-01-02", "seg-000003.wal.idx"] =
      nextIndexSpecChoice
        ⟨[(["wal", "2025-01-04", "seg-000001.wal.idx"], [])], [],
          [(["wal"], [⟨"2025-01-02", true⟩, ⟨"2025-01-06", true⟩, ⟨"2025-01-04", true⟩])]⟩
        ["wal", "2025-01-02", "seg-000003.wal.idx"] := by
  refine ⟨rfl, rfl, ?_⟩
  exact (reader_rotation_choice
    ⟨[(["wal", "2025-01-04", "seg-000001.wal.idx"], [])], [],
      [(["wal"], [⟨"2025-01-02", true⟩, ⟨"2025-01-06", true⟩, ⟨"2025-01-04", true⟩])]⟩
    (Reader.mk ["wal", "2025-01-02", "seg-000003.wal.idx"] true [] 90 none "")
    0 rfl rfl).1

end Walship

namespace Walship

/-! ## Cleanup loop

Embeds `internal/agent/cleanup.go`: `segmentNumber`, `scanSegmentDir`,
`dayDirectories`, `orderedSegments`, `currentActiveDay`, `walDirSize`, and
the removal loop of `walCleanupOnce`.  Directory listings carry entry sizes
(`os.ReadDir` + `DirEntry.Info`).  The WAL trees in play are two levels
deep (segments at the root or inside day directories), which is how
`walDirSize` walks them here.  Removals are modelled as always succeeding;
sizes are `Int` because Go tracks them in `int64`. -/

/-- A cleanup-side directory entry: name, kind, size. -/
structure CEnt where
  name : String
  isDir : Bool
  size : Nat
  deriving Repr, DecidableEq

/-- The WAL directory tree as the cleanup pass sees it. -/
structure CleanFs where
  dirs : List (Path × List CEnt)
  deriving Repr

/-- `os.ReadDir`. -/
def CleanFs.readDir (fs : CleanFs) (p : Path) : Option (List CEnt) :=
  (fs.dirs.find? fun e => e.1 = p).map Prod.snd

/-- `walSegment`: Go's empty-string paths are `none` here. -/
structure WalSegment where
  day : String
  gzPath : Option Path
  idxPath : Option Path
  gzSize : Nat
  idxSize : Nat
  deriving Repr, DecidableEq

/-- The zero `walSegment{}` made by `getSegment`. -/
def WalSegment.empty : WalSegment := ⟨"", none, none, 0, 0⟩

/-- `strconv.Atoi`: optional sign, then at least one decimal digit. -/
def atoi (cs : List Char) : Option Int :=
  match cs with
  | [] => none
  | '+' :: rest =>
      if rest ≠ [] ∧ rest.all (·.isDigit) then some ((digitsVal rest : Nat) : Int)
      else none
  | '-' :: rest =>
      if rest ≠ [] ∧ rest.all (·.isDigit) then some (-((digitsVal rest : Nat) : Int))
      else none
  | _ => if cs.all (·.isDigit) then some ((digitsVal cs : Nat) : Int) else none

/-- `segmentNumber(name, suffix)`: require the `seg-` lead and the given
trailing suffix, require exactly six characters in between, and `Atoi`
them. -/
def segmentNumber (name sfx : String) : Option Int :=
  let cs := name.toList
  let sl := sfx.toList
  if cs.take 4 = "seg-".toList then
    let rest := cs.drop 4
    if sl.length ≤ rest.length ∧ rest.drop (rest.length - sl.length) = sl then
      let numStr := rest.take (rest.length - sl.length)
      if numStr.length = 6 then atoi numStr else none
    else none
  else none

/-- `getSegment` + field assignment: update the entry for `num` (creating
it from the zero segment first, as `getSegment` does). -/
def updateSeg (byNum : List (Int × WalSegment)) (num : Int)
    (f : WalSegment → WalSegment) : List (Int × WalSegment) :=
  if (byNum.find? fun p => p.1 = num).isSome then
    byNum.map fun p => if p.1 = num then (p.1, f p.2) else p
  else byNum ++ [(num, f WalSegment.empty)]

/-- `scanSegmentDir(dir, day)`: collect `.wal.gz`/`.wal.idx` entries by
segment number, keep those with a gz file, in ascending numeric order
(`sort.Ints`). -/
def scanSegmentDir (fs : CleanFs) (dir : Path) (day : String) :
    Option (List WalSegment) :=
  match fs.readDir dir with
  | none => none
  | some ents =>
      let byNum := ents.foldl (fun acc e =>
        if e.name.endsWith ".wal.gz" then
          match segmentNumber e.name ".wal.gz" with
          | none => acc
          | some num => updateSeg acc num fun s =>
              { s with day := day, gzPath := some (dir ++ [e.name]), gzSize := e.size }
        else if e.name.endsWith ".wal.idx" then
          match segmentNumber e.name ".wal.idx" with
          | none => acc
          | some num => updateSeg acc num fun s =>
              { s with day := day, idxPath := some (dir ++ [e.name]), idxSize := e.size }
        else acc) ([] : List (Int × WalSegment))
      let numbers := ((byNum.filter fun p => p.2.gzPath.isSome).map (·.1)).insertionSort (· ≤ ·)
      some (numbers.filterMap fun n =>
        ((byNum.find? fun p => p.1 = n).map Prod.snd).bind fun seg =>
          if seg.gzPath.isSome then some seg else none)

/-- `dayDirectories`: the day-named subdirectories, sorted
(`sort.Strings`). -/
def dayDirectories (fs : CleanFs) (walDir : Path) : Option (List String) :=
  match fs.readDir walDir with
  | none => none
  | some ents =>
      some (((ents.filter fun e => e.isDir && isDayDirName e.name).map
        (·.name)).insertionSort (· ≤ ·))

/-- `orderedSegments(walDir, skipFromDay)`: top-level segments first, then
each non-skipped day directory in ascending order; any listing error aborts
(`none`).  A day is skipped when `skipFromDay != "" && day >= skipFromDay`. -/
def orderedSegments (fs : CleanFs) (walDir : Path) (skipFromDay : String) :
    Option (List WalSegment) :=
  match dayDirectories fs walDir with
  | none => none
  | some dayDirs =>
      match scanSegmentDir fs walDir "" with
      | none => none
      | some top =>
          dayDirs.foldl (fun acc day =>
            match acc with
            | none => none
            | some segs =>
                if skipFromDay ≠ "" ∧ skipFromDay ≤ day then some segs
                else
                  match scanSegmentDir fs (walDir ++ [day]) day with
                  | none => none
                  | some ds => some (segs ++ ds)) (some top)

/-- `currentActiveDay(stateDir)`: the day directory of the persisted
`IdxPath`.  The argument is the loaded state's `IdxPath` as a component
path; `none` covers both a `loadState` error and an empty `IdxPath`.
Returns `""` when the index is not inside a day directory. -/
def currentActiveDay (loadedIdxPath : Option Path) : String :=
  match loadedIdxPath with
  | none => ""
  | some p =>
      let day := baseOf (dirOf p)
      if isDayDirName day then day else ""

/-- `walDirSize`: recursive size summation (two-level walk: root files plus
each subdirectory's files); a listing error aborts (`none`). -/
def walDirSize (fs : CleanFs) (walDir : Path) : Option Int :=
  match fs.readDir walDir with
  | none => none
  | some ents =>
      ents.foldl (fun acc e =>
        match acc with
        | none => none
        | some t =>
            if e.isDir then
              match fs.readDir (walDir ++ [e.name]) with
              | none => none
              | some subs =>
                  some (t + (((subs.filter fun s => !s.isDir).map
                    fun s => (s.size : Int)).foldl (· + ·) 0))
            else some (t + (e.size : Int))) (some 0)

/-- The removal loop of `walCleanupOnce`: walk the ordered candidates,
stopping at the low watermark, deleting the `.wal.gz` and then the
`.wal.idx`; returns the removed segments in order.  A segment without a gz
path is a `removeSegment` error and is skipped. -/
def cleanupRemovals : List WalSegment → Int → Int → List WalSegment
  | [], _, _ => []
  | seg :: rest, curSize, low =>
      if curSize ≤ low then []
      else
        match seg.gzPath with
        | none => cleanupRemovals rest curSize low
        | some _ =>
            let freed : Int :=
              (seg.gzSize : Int) + (if seg.idxPath.isSome then (seg.idxSize : Int) else 0)
            seg :: cleanupRemovals rest (curSize - freed) low

/-- `walCleanupOnce`: measure the tree, stop under the high watermark, else
remove ordered old segments until the low watermark.  Returns the removed
segments. -/
def walCleanupOnce (fs : CleanFs) (walDir : Path) (loadedIdxPath : Option Path)
    (high low : Int) : List WalSegment :=
  match walDirSize fs walDir with
  | none => []
  | some curSize =>
      if curSize ≤ high then []
      else
        match orderedSegments fs walDir (currentActiveDay loadedIdxPath) with
        | none => []
        | some segs => cleanupRemovals segs curSize low

end Walship

namespace Walship

/-! ## Theorems: cleanup protection (claim C8) -/

/-- Helper: `updateSeg` preserves a per-segment predicate that the updater
establishes. -/
theorem updateSeg_pred {P : WalSegment → Prop} {byNum : List (Int × WalSegment)}
    {num : Int} {f : WalSegment → WalSegment}
    (hacc : ∀ p ∈ byNum, P p.2) (hf : ∀ s, P (f s)) :
    ∀ p ∈ updateSeg byNum num f, P p.2 := by
  intro p hp
  unfold updateSeg at hp
  split at hp
  · obtain ⟨q, hq, hqe⟩ := List.mem_map.mp hp
    by_cases hk : q.1 = num
    · rw [if_pos hk] at hqe
      rw [← hqe]
      exact hf q.2
    · rw [if_neg hk] at hqe
      exact hqe ▸ hacc q hq
  · rcases List.mem_append.mp hp with h | h
    · exact hacc p h
    · have he : p = (num, f WalSegment.empty) := List.mem_singleton.mp h
      rw [he]
      exact hf WalSegment.empty

/-- Helper: every segment assembled by `scanSegmentDir dir day` carries
`day` as its day. -/
theorem scanSegmentDir_day {fs : CleanFs} {dir : Path} {day : String}
    {segs : List WalSegment} (h : scanSegmentDir fs dir day = some segs) :
    ∀ seg ∈ segs, seg.day = day := by
  intro seg hseg
  unfold scanSegmentDir at h
  split at h
  · exact absurd h (by simp)
  · rename_i ents hrd
    simp only [Option.some.injEq] at h
    have hinv : ∀ (l : List CEnt) (acc : List (Int × WalSegment)),
        (∀ p ∈ acc, p.2.day = day) →
        ∀ p ∈ l.foldl (fun acc e =>
          if e.name.endsWith ".wal.gz" then
            match segmentNumber e.name ".wal.gz" with
            | none => acc
            | some num => updateSeg acc num fun s =>
                { s with day := day, gzPath := some (dir ++ [e.name]), gzSize := e.size }
          else if e.name.endsWith ".wal.idx" then
            match segmentNumber e.name ".wal.idx" with
            | none => acc
            | some num => updateSeg acc num fun s =>
                { s with day := day, idxPath := some (dir ++ [e.name]), idxSize := e.size }
          else acc) acc, p.2.day = day := by
      intro l
      induction l with
      | nil => intro acc hacc p hp; exact hacc p hp
      | cons e es ih =>
          intro acc hacc
          simp only [List.foldl_cons]
          refine ih _ ?_
          by_cases hgz : e.name.endsWith ".wal.gz"
          · rw [if_pos hgz]
            cases segmentNumber e.name ".wal.gz" with
            | none => exact hacc
            | some num =>
                exact updateSeg_pred (P := fun s => s.day = day) hacc fun s => rfl
          · rw [if_neg hgz]
            by_cases hidx : e.name.endsWith ".wal.idx"
            · rw [if_pos hidx]
              cases segmentNumber e.name ".wal.idx" with
              | none => exact hacc
              | some num =>
                  exact updateSeg_pred (P := fun s => s.day = day) hacc fun s => rfl
            · rw [if_neg hidx]
              exact hacc
    rw [← h] at hseg
    obtain ⟨n, hn, hfm⟩ := List.mem_filterMap.mp hseg
    cases hfind : (List.find? (fun p => p.1 = n) (ents.foldl (fun acc e =>
        if e.name.endsWith ".wal.gz" then
          match segmentNumber e.name ".wal.gz" with
          | none => acc
          | some num => updateSeg acc num fun s =>
              { s with day := day, gzPath := some (dir ++ [e.name]), gzSize := e.size }
        else if e.name.endsWith ".wal.idx" then
          match segmentNumber e.name ".wal.idx" with
          | none => acc
          | some num => updateSeg acc num fun s =>
              { s with day := day, idxPath := some (dir ++ [e.name]), idxSize := e.size }
        else acc) ([] : List (Int × WalSegment)))) with
    | none =>
        rw [hfind] at hfm
        exact absurd hfm (by simp)
    | some q =>
        rw [hfind] at hfm
        simp only [Option.map_some', Option.some_bind] at hfm
        have hqmem := List.mem_of_find?_eq_some hfind
        have hqday := hinv ents [] (fun p hp => absurd hp (List.not_mem_nil p)) q hqmem
        split at hfm
        · simp only [Option.some.injEq] at hfm
          rw [← hfm]
          exact hqday
        · exact absurd hfm (by simp)

/-- Helper: every removed segment is one of the ordered candidates. -/
theorem cleanupRemovals_subset (segs : List WalSegment) :
    ∀ (curSize low : Int), ∀ s ∈ cleanupRemovals segs curSize low, s ∈ segs := by
  induction segs with
  | nil => intro curSize low s hs; simp [cleanupRemovals] at hs
  | cons seg rest ih =>
      intro curSize low s hs
      unfold cleanupRemovals at hs
      split at hs
      · exact absurd hs (List.not_mem_nil s)
      · split at hs
        · exact List.mem_cons_of_mem seg (ih curSize low s hs)
        · rcases List.mem_cons.mp hs with h | h
          · exact h ▸ List.mem_cons_self seg rest
          · exact List.mem_cons_of_mem seg (ih _ low s h)

/-- Helper: every candidate listed by `orderedSegments` with a non-empty
protected day is a top-level segment or lies in a strictly older day. -/
theorem orderedSegments_day {fs : CleanFs} {walDir : Path} {d : String}
    {segs : List WalSegment} (hd : d ≠ "")
    (h : orderedSegments fs walDir d = some segs) :
    ∀ seg ∈ segs, seg.day = "" ∨ seg.day < d := by
  unfold orderedSegments at h
  split at h
  · exact absurd h (by simp)
  · rename_i dayDirs hdd
    split at h
    · exact absurd h (by simp)
    · rename_i top htop
      have htopday := scanSegmentDir_day htop
      have hgen : ∀ (days : List String) (acc : List WalSegment),
          (∀ s ∈ acc, s.day = "" ∨ s.day < d) →
          days.foldl (fun acc day =>
            match acc with
            | none => none
            | some segs =>
                if d ≠ "" ∧ d ≤ day then some segs
                else
                  match scanSegmentDir fs (walDir ++ [day]) day with
                  | none => none
                  | some ds => some (segs ++ ds)) (some acc) = some segs →
          ∀ s ∈ segs, s.day = "" ∨ s.day < d := by
        intro days
        induction days with
        | nil =>
            intro acc hacc hfold
            simp only [List.foldl_nil, Option.some.injEq] at hfold
            exact hfold ▸ hacc
        | cons day rest ih =>
            intro acc hacc hfold
            simp only [List.foldl_cons] at hfold
            by_cases hskip : d ≠ "" ∧ d ≤ day
            · rw [if_pos hskip] at hfold
              exact ih acc hacc hfold
            · rw [if_neg hskip] at hfold
              cases hscan : scanSegmentDir fs (walDir ++ [day]) day with
              | none =>
                  rw [hscan] at hfold
                  have hnone : ∀ (ds : List String),
                      ds.foldl (fun acc day =>
                        match acc with
                        | none => none
                        | some segs =>
                            if d ≠ "" ∧ d ≤ day then some segs
                            else
                              match scanSegmentDir fs (walDir ++ [day]) day with
                              | none => none
                              | some ds => some (segs ++ ds))
                        (none : Option (List WalSegment)) = none := by
                    intro ds
                    induction ds with
                    | nil => rfl
                    | cons x xs ihx => simp only [List.foldl_cons]; exact ihx
                  rw [hnone rest] at hfold
                  exact absurd hfold (by simp)
              | some ds =>
                  rw [hscan] at hfold
                  have hlt : day < d := by
                    rcases not_and_or.mp hskip with hc | hc
                    · exact absurd hd (not_not.mp (by simpa using hc))
                    · exact lt_of_not_ge hc
                  refine ih (acc ++ ds) ?_ hfold
                  intro s hs
                  rcases List.mem_append.mp hs with hmem | hmem
                  · exact hacc s hmem
                  · right
                    rw [scanSegmentDir_day hscan s hmem]
                    exact hlt
      exact hgen dayDirs top (fun s hs => Or.inl (htopday s hs)) h

/-- **C8**.  Under the precondition that the persisted `State.idx_path`
lies inside a day directory `d`, a cleanup pass never deletes a segment of
day ≥ `d`: every removed segment is a top-level segment (day `""`) or lives
in a strictly older day directory. -/
theorem cleanup_protects_active_day (fs : CleanFs) (walDir : Path)
    (stIdxPath : Path) (d : String) (high low : Int)
    (hd : baseOf (dirOf stIdxPath) = d) (hday : isDayDirName d = true) :
    ∀ seg ∈ walCleanupOnce fs walDir (some stIdxPath) high low,
      seg.day = "" ∨ seg.day < d := by
  intro seg hseg
  have hcad : currentActiveDay (some stIdxPath) = d := by
    simp only [currentActiveDay]
    rw [hd, if_pos hday]
  unfold walCleanupOnce at hseg
  rw [hcad] at hseg
  split at hseg
  · exact absurd hseg (List.not_mem_nil seg)
  · split at hseg
    · exact absurd hseg (List.not_mem_nil seg)
    · split at hseg
      · exact absurd hseg (List.not_mem_nil seg)
      · rename_i segs hord
        exact orderedSegments_day (isDayDirName_ne_empty hday) hord seg
          (cleanupRemovals_subset segs _ low seg hseg)

/-- Witness for `cleanup_protects_active_day` at a concrete tree with three
day directories, the persisted index inside the middle one. -/
theorem cleanup_protects_active_day_witness :
    baseOf (dirOf ["wal", "2025-12-06", "seg-000001.wal.idx"]) = "2025-12-06" ∧
    isDayDirName "2025-12-06" = true ∧
    (∀ seg ∈ walCleanupOnce
        ⟨[(["wal"], [⟨"2025-12-05", true, 0⟩, ⟨"2025-12-06", true, 0⟩,
            ⟨"2025-12-07", true, 0⟩]),
          (["wal", "2025-12-05"], [⟨"seg-000001.wal.gz", false, 120⟩,
            ⟨"seg-000001.wal.idx", false, 10⟩]),
          (["wal", "2025-12-06"], [⟨"seg-000001.wal.gz", false, 120⟩,
            ⟨"seg-000001.wal.idx", false, 10⟩]),
          (["wal", "2025-12-07"], [⟨"seg-000001.wal.gz", false, 50⟩,
            ⟨"seg-000001.wal.idx", false, 10⟩])]⟩
        ["wal"] (some ["wal", "2025-12-06", "seg-000001.wal.idx"]) 200 100,
      seg.day = "" ∨ seg.day < "2025-12-06") := by
  refine ⟨rfl, by decide, ?_⟩
  exact cleanup_protects_active_day
    ⟨[(["wal"], [⟨"2025-12-05", true, 0⟩, ⟨"2025-12-06", true, 0⟩,
        ⟨"2025-12-07", true, 0⟩]),
      (["wal", "2025-12-05"], [⟨"seg-000001.wal.gz", false, 120⟩,
        ⟨"seg-000001.wal.idx", false, 10⟩]),
      (["wal", "2025-12-06"], [⟨"seg-000001.wal.gz", false, 120⟩,
        ⟨"seg-000001.wal.idx", false, 10⟩]),
      (["wal", "2025-12-07"], [⟨"seg-000001.wal.gz", false, 50⟩,
        ⟨"seg-000001.wal.idx", false, 10⟩])]⟩
    ["wal"] ["wal", "2025-12-06", "seg-000001.wal.idx"] "2025-12-06" 200 100
    rfl (by decide)

end Walship

namespace Walship

/-! ## Agent loop

Embeds `Agent.Run` and `Agent.trySend` from `internal/app/agent.go`, closed
over: a reader on its happy path (each `Next` hands out the next frame and
advances the internal `idxOff` by the line length, as `IndexReader.Next`
does), a sender whose every request is acknowledged with 2xx, one-shot mode,
no resource gate, and a run that stays inside one `send_interval` window (so
`ShouldSend`/`ShouldForceSend` are false and flushes happen on the size
trigger or at end-of-data).  The model has no clock, so the two state
timestamps stay untouched. -/

/-- One frame as the reader yields it: descriptor, compressed byte count,
index-line length. -/
structure SFrame where
  meta : FrameMeta
  bytesLen : Nat
  lineLen : Nat
  deriving Repr, DecidableEq

/-- The reader as the agent loop sees it: the remaining frames of the
current index and the internal `idxOff` that `IndexReader.Next` advances by
the line length on every successfully returned frame — so
`CurrentPosition()` already covers every frame handed to the loop,
including any frame the batcher later refuses. -/
structure SReader where
  idxPath : String
  remaining : List SFrame
  idxOff : Nat
  curGz : String
  deriving Repr, DecidableEq

/-- `Reader.Next` on the happy path: pop the next frame and advance
`idxOff`; `io.EOF` (`none`) when the index is exhausted. -/
def SReader.next (rd : SReader) : SReader × Option SFrame :=
  match rd.remaining with
  | [] => (rd, none)
  | f :: rest =>
      ({ rd with
          remaining := rest
          idxOff := rd.idxOff + f.lineLen
          curGz := f.meta.file }, some f)

/-- The agent's state plus the run's observable trace: every state passed
to `State.Save` and the frames of every batch the server acknowledged. -/
structure AgentSt where
  reader : SReader
  batcher : Batcher
  state : PState
  saved : List PState
  sent : List (List FrameMeta)
  deriving Repr, DecidableEq

/-- `Agent.trySend`, success path (server acknowledges with 2xx): no-op on
an empty batch; otherwise record the send, apply
`State.UpdateAfterSend(TotalIdxAdvance(), lastFile, lastFrame)`, copy
`Reader.CurrentPosition()` into the state, `State.Save`, and
`Batcher.Reset`. -/
def trySendOk (a : AgentSt) : AgentSt :=
  if a.batcher.batch.isEmpty then a
  else
    let batch := a.batcher.batch
    let st1 :=
      match batch.frames.getLast? with
      | some lf =>
          { a.state with
              idxOffset := a.state.idxOffset + (batch.totalIdxAdvance : Int)
              lastFile := lf.file
              lastFrame := lf.frame }
      | none => a.state
    let st2 := { st1 with
        idxPath := a.reader.idxPath
        idxOffset := (a.reader.idxOff : Int)
        curGz := a.reader.curGz }
    { a with
        state := st2
        saved := a.saved ++ [st2]
        sent := a.sent ++ [batch.frames]
        batcher := { a.batcher with batch := Batch.new } }

/-- `Agent.Run`, one-shot, gate absent, inside one `send_interval` window:
read, batch (`size_trigger = Batcher.Add(...)`), flush on the size trigger,
and at `EndOfData` flush any pending batch and return.  Fuel bounds the
loop. -/
def runAgent : Nat → AgentSt → AgentSt
  | 0, a => a
  | fuel + 1, a =>
      match a.reader.next with
      | (rd, none) =>
          let a1 := { a with reader := rd }
          if a1.batcher.batch.isEmpty then a1 else trySendOk a1
      | (rd, some f) =>
          let addRes := a.batcher.add f.meta (List.replicate f.bytesLen 0) f.lineLen
          let a2 : AgentSt := { a with reader := rd, batcher := addRes.1 }
          let a3 := if addRes.2 then trySendOk a2 else a2
          runAgent fuel a3

/-- The index line of each frame, as the closed byte range it occupies:
`(descriptor, end offset of its line)` in read order. -/
def frameLineEnds (frames : List SFrame) : List (FrameMeta × Nat) :=
  (frames.foldl (fun (acc : List (FrameMeta × Nat) × Nat) f =>
    (acc.1 ++ [(f.meta, acc.2 + f.lineLen)], acc.2 + f.lineLen)) ([], 0)).1

/-- The spec's durability invariant over a run's trace: in every persisted
state, every frame whose index line lies entirely before the saved
`idx_offset` belongs to some acknowledged batch. -/
def DurabilityOk (frames : List SFrame) (saved : List PState)
    (sent : List (List FrameMeta)) : Prop :=
  ∀ st ∈ saved, ∀ p ∈ frameLineEnds frames,
    (p.2 : Int) ≤ st.idxOffset → ∃ b ∈ sent, p.1 ∈ b

end Walship

namespace Walship

/-! ## Theorems: durability of the committed offset (claim C1) -/

/-- **C1** (code evaluated at the failing input).  Two 60-byte frames under
a 100-byte cap, every send acknowledged: frame A is batched; offering frame
B trips the size cap, `Batcher.Add` refuses it (case 2) and returns `true`;
`Agent.Run` flushes the batch `[A]` — but never re-offers B — and on success
copies `Reader.CurrentPosition()` into the state, which already covers B's
index line.  The persisted `idx_offset` is 22 (both lines) while only A was
ever acknowledged, so the durability invariant fails: B's line lies before
the committed offset, yet B is in no acknowledged batch and is silently
dropped. -/
theorem agent_commits_past_unsent_frame :
    (runAgent 3
        ⟨⟨"wal/2025-01-02/seg-000001.wal.idx",
            [⟨⟨"seg-000001.wal.gz", 1, 0, 60, 1, 0, 0, 0⟩, 60, 10⟩,
             ⟨⟨"seg-000001.wal.gz", 2, 60, 60, 1, 0, 0, 0⟩, 60, 12⟩], 0, ""⟩,
          ⟨Batch.new, 100⟩, PState.empty, [], []⟩).saved =
      [⟨"wal/2025-01-02/seg-000001.wal.idx", 22, "seg-000001.wal.gz",
        "seg-000001.wal.gz", 1, 0, 0⟩] ∧
    (runAgent 3
        ⟨⟨"wal/2025-01-02/seg-000001.wal.idx",
            [⟨⟨"seg-000001.wal.gz", 1, 0, 60, 1, 0, 0, 0⟩, 60, 10⟩,
             ⟨⟨"seg-000001.wal.gz", 2, 60, 60, 1, 0, 0, 0⟩, 60, 12⟩], 0, ""⟩,
          ⟨Batch.new, 100⟩, PState.empty, [], []⟩).sent =
      [[⟨"seg-000001.wal.gz", 1, 0, 60, 1, 0, 0, 0⟩]] ∧
    ¬ DurabilityOk
        [⟨⟨"seg-000001.wal.gz", 1, 0, 60, 1, 0, 0, 0⟩, 60, 10⟩,
         ⟨⟨"seg-000001.wal.gz", 2, 60, 60, 1, 0, 0, 0⟩, 60, 12⟩]
        (runAgent 3
          ⟨⟨"wal/2025-01-02/seg-000001.wal.idx",
              [⟨⟨"seg-000001.wal.gz", 1, 0, 60, 1, 0, 0, 0⟩, 60, 10⟩,
               ⟨⟨"seg-000001.wal.gz", 2, 60, 60, 1, 0, 0, 0⟩, 60, 12⟩], 0, ""⟩,
            ⟨Batch.new, 100⟩, PState.empty, [], []⟩).saved
        (runAgent 3
          ⟨⟨"wal/2025-01-02/seg-000001.wal.idx",
              [⟨⟨"seg-000001.wal.gz", 1, 0, 60, 1, 0, 0, 0⟩, 60, 10⟩,
               ⟨⟨"seg-000001.wal.gz", 2, 60, 60, 1, 0, 0, 0⟩, 60, 12⟩], 0, ""⟩,
            ⟨Batch.new, 100⟩, PState.empty, [], []⟩).sent := by
  refine ⟨by decide, by decide, ?_⟩
  intro hok
  have h := hok
    ⟨"wal/2025-01-02/seg-000001.wal.idx", 22, "seg-000001.wal.gz",
      "seg-000001.wal.gz", 1, 0, 0⟩ (by decide)
    (⟨"seg-000001.wal.gz", 2, 60, 60, 1, 0, 0, 0⟩, 22) (by decide) (by decide)
  revert h
  decide

end Walship
